import Mathlib

/- Verification of the memcache-backed entity cache layer of the Simian
   fleet-management backend (simian/mac/models/base.py), shallow-embedded
   in Lean.

   Embedding conventions:
   * The App Engine datastore (durable store) is a list of entities; the
     memcache (cache client) is an association list from string keys to
     cached objects.  Both are external collaborators of the repository,
     so their get/set/delete contracts are modelled, not ported.
   * Protobuf serialization (db.model_to_protobuf(e).SerializeToString()
     and db.model_from_protobuf) is an external opaque codec: a payload is
     either a valid encoding of an entity or undecodable junk; decoding a
     valid encoding returns the entity and decoding anything else fails
     (the code traps this failure broadly, see MemcacheWrappedGet).
   * Python `None` stored in memcache reads back as `None`, which the code
     cannot tell from a miss; `mcGet` reproduces this.
   * memcache.set may raise ValueError (oversized payload); the state
     carries the set of keys on which the cache client's set raises, and
     each call site propagates or traps it exactly as the source does.
   * Expiry (memcache_secs) has no semantic effect on the immediate
     read-after-write behaviour the claims are about; the parameter is
     kept in the signatures but time is not modelled.
-/

namespace Simian

/-- Serialized text in util.Serialize() form.  Modelled from the spec:
the util module is not under src/; per the spec the serialization adapter
is `Encode/Decode` where decoding junk fails distinctly from absence.
`ser l` is the valid serialization of a list of strings, `junk s` is any
other text and fails to deserialize. -/
inductive SerText where
  | ser (l : List String)
  | junk (s : String)
deriving DecidableEq, Repr

/-- A (non-None) storable property value: string, integer, boolean, or a
text blob (possibly util.Serialize()d). -/
inductive Value where
  | str (s : String)
  | int (i : Int)
  | bool (b : Bool)
  | text (t : SerText)
deriving DecidableEq, Repr

/-- A datastore entity: an entity-type name (db kind), a key name, and the
mapping of property names to values.  getattr on a name absent from
`props` models the AttributeError branch of the source. -/
structure Entity where
  kind : String
  keyName : String
  props : List (String × Value)
deriving DecidableEq, Repr

/-- getattr(entity, prop_name); `none` models AttributeError. -/
def Entity.getProp (e : Entity) (p : String) : Option Value :=
  (e.props.find? (fun q => q.1 = p)).map (·.2)

/-- setattr(entity, prop_name, value). -/
def Entity.setProp (e : Entity) (p : String) (v : Value) : Entity :=
  { e with props := (p, v) :: e.props.filter (fun q => ¬(q.1 = p)) }

/-- An opaque protobuf byte payload: either the stable encoding of an
entity, or undecodable junk (a corrupt or incompatible payload). -/
inductive Payload where
  | enc (e : Entity)
  | corrupt (n : Nat)
deriving DecidableEq, Repr

/-- db.model_to_protobuf(entity).SerializeToString(). -/
def db_model_to_protobuf (e : Entity) : Payload := .enc e

/-- The kinds of object the source stores in memcache: protobuf payload
strings (entity-level wrap), raw property values (field-level wrap), a raw
entity object or None (as stored by ResetMemcacheWrap), and raw entity
lists (as stored by MemcacheWrappedGetAllFilter). -/
inductive CacheVal where
  | bytes (p : Payload)
  | val (v : Value)
  | entity (e : Option Entity)
  | entities (es : List Entity)
deriving DecidableEq, Repr

/-- db.model_from_protobuf(cached): succeeds only on a valid protobuf
payload string; on junk payloads, raw values, raw entity objects or lists
it raises, which the source traps as a broad Exception. -/
def db_model_from_protobuf : CacheVal → Option Entity
  | .bytes (.enc e) => some e
  | _ => none

/-! External collaborator: the cache client (memcache). -/

/-- Remove every binding of key `k`. -/
def mcEraseKey : List (String × CacheVal) → String → List (String × CacheVal)
  | [], _ => []
  | (k', v) :: m, k => if k' = k then mcEraseKey m k else (k', v) :: mcEraseKey m k

/-- The raw binding held at key `k`, if any. -/
def mcRawGet : List (String × CacheVal) → String → Option CacheVal
  | [], _ => none
  | (k', v) :: m, k => if k' = k then some v else mcRawGet m k

/-- memcache.get(k): a stored Python None (only ResetMemcacheWrap stores
one, as `.entity none`) reads back as None, indistinguishable from a
miss. -/
def mcGet (m : List (String × CacheVal)) (k : String) : Option CacheVal :=
  match mcRawGet m k with
  | some (.entity none) => none
  | r => r

/-- memcache.set(k, v) after it succeeded. -/
def mcSet (m : List (String × CacheVal)) (k : String) (v : CacheVal) :
    List (String × CacheVal) :=
  (k, v) :: mcEraseKey m k

/-! External collaborator: the durable store (datastore). -/

/-- Remove the entity of the given kind and key name. -/
def dsEraseKey : List Entity → String → String → List Entity
  | [], _, _ => []
  | e :: d, kind, kn =>
      if e.kind = kind ∧ e.keyName = kn then dsEraseKey d kind kn
      else e :: dsEraseKey d kind kn

/-- cls.get_by_key_name(key_name). -/
def dsGet : List Entity → String → String → Option Entity
  | [], _, _ => none
  | e :: d, kind, kn =>
      if e.kind = kind ∧ e.keyName = kn then some e else dsGet d kind kn

/-- db.Model.put persistence effect: replace the record. -/
def dsPut (d : List Entity) (e : Entity) : List Entity :=
  e :: dsEraseKey d e.kind e.keyName

/-- A registered memcache auto-update task.  The source registers a tuple
(method name, args, kwargs) of arbitrary class methods; a drain only runs
each callback in order, so a task is modelled by an identity and by
whether its callback raises when invoked (its effect on the shared stores
is opaque to the queue itself). -/
structure AutoTask where
  tid : Nat
  fails : Bool
deriving DecidableEq, Repr

/-- The shared world state: durable store, cache contents, the set of
cache keys on which the cache client's set raises ValueError (oversized
payloads), the per-type registered auto-update task list
(cls._memcache_auto_update_tasks), and how many deferred drain cycles
have been scheduled on the background execution facility. -/
structure State where
  ds : List Entity
  mc : List (String × CacheVal)
  failSetKeys : List String
  tasks : List AutoTask
  deferredDrains : Nat
deriving DecidableEq, Repr

/-- memcache.set(k, v, secs): `none` models the raised ValueError. -/
def State.mcSet? (s : State) (k : String) (v : CacheVal) : Option State :=
  if k ∈ s.failSetKeys then none else some { s with mc := mcSet s.mc k v }

/-- memcache.set wrapped in the source's try/except ValueError: the
failure is logged and swallowed, leaving the cache unchanged. -/
def State.mcSetSwallow (s : State) (k : String) (v : CacheVal) : State :=
  (s.mcSet? k v).getD s

/-- The entity-level cache key 'mwg_%s_%s' % (cls.kind(), key_name). -/
def mwgKey (kind keyName : String) : String :=
  "mwg_" ++ kind ++ "_" ++ keyName

/-- The field-level cache key
'mwgpn_%s_%s_%s' % (cls.kind(), key_name, prop_name). -/
def mwgpnKey (kind keyName propName : String) : String :=
  "mwgpn_" ++ kind ++ "_" ++ keyName ++ "_" ++ propName

/-- The cache key MemcacheWrappedGet computes for a request. -/
def memKeyFor (kind keyName : String) : Option String → String
  | some p => mwgpnKey kind keyName p
  | none => mwgKey kind keyName

/-! The Entity Cache Engine (classmethods of BaseModel). -/

/-- MemcacheAddAutoUpdateTask(func, *args, **kwargs): appends the task to
cls._memcache_auto_update_tasks.  (The hasattr/callable ValueError guard
concerns only misspelled method names and registers nothing.) -/
def MemcacheAddAutoUpdateTask (s : State) (t : AutoTask) : State :=
  { s with tasks := s.tasks ++ [t] }

/-- One pass of the drain loop
`for func, args, kwargs in tasks: getattr(cls, func)(*args, **kwargs)`:
returns the identities of the callbacks that were invoked, in order, and
whether an exception escaped the loop.  There is no try/except around the
body, so the first raising task aborts the loop. -/
def runTasks : List AutoTask → List Nat × Except Unit Unit
  | [] => ([], .ok ())
  | t :: ts =>
      if t.fails then ([t.tid], .error ())
      else
        let r := runTasks ts
        (t.tid :: r.1, r.2)

/-- MemcacheAutoUpdate(_deferred): if no tasks are registered, returns at
once; if not yet deferred, schedules one deferred drain
(deferred.defer(cls.MemcacheAutoUpdate, _deferred=True, _countdown=10))
and returns; otherwise runs every registered task in order.  Result: the
invoked callback identities, and the post-state or the propagated
exception (the error carries the state at the raise; the callbacks' own
effects on the stores are outside the queue model). -/
def MemcacheAutoUpdate (s : State) (deferredFlag : Bool) :
    List Nat × Except State State :=
  if s.tasks.isEmpty then ([], .ok s)
  else if deferredFlag = false then
    ([], .ok { s with deferredDrains := s.deferredDrains + 1 })
  else
    match runTasks s.tasks with
    | (ids, .ok ()) => (ids, .ok s)
    | (ids, .error ()) => (ids, .error s)

/-- BaseModel.put: the superclass datastore put, then
self.MemcacheAutoUpdate() (non-deferred, hence never raising). -/
def put (s : State) (e : Entity) : State :=
  let s1 := { s with ds := dsPut s.ds e }
  match MemcacheAutoUpdate s1 false with
  | (_, .ok s2) => s2
  | (_, .error s2) => s2

/-- ResetMemcacheWrap(key_name, memcache_secs): fetches the entity by key
name and memcache.set's it — the raw entity object, or None when absent —
at the entity-level key.  The set is not wrapped in try/except, so a
ValueError propagates. -/
def ResetMemcacheWrap (s : State) (kind keyName : String) (secs : Nat) :
    Except State State :=
  let memcacheKey := mwgKey kind keyName
  let entity := dsGet s.ds kind keyName
  match s.mcSet? memcacheKey (.entity entity) with
  | none => .error s
  | some s' => .ok s'

/-- Result of MemcacheWrappedGet: either a whole db.Model entity or a
property value (the raw cached object on the field-level hit path). -/
inductive GetOut where
  | ent (e : Entity)
  | pv (v : CacheVal)
deriving DecidableEq, Repr

/-- MemcacheWrappedGet with the retry flag rendered as remaining decode
retries: fuel 1 is retry=False (one retry left), fuel 0 is retry=True.
Faithful to the source: compute the cache key; on a miss fetch the entity
from the datastore (returning None when absent), read the property
(AttributeError on a missing property is logged and returns None) or
encode the whole entity, populate the cache with ValueError swallowed,
and return; on a hit return the cached property value directly, or decode
the whole entity, and on a decode failure delete the stale entry and
either re-run once with the retry flag set or, on the retried failure,
fall back to a direct datastore read. -/
def MemcacheWrappedGetFuel (s : State) (kind keyName : String)
    (propName : Option String) (secs : Nat) (fuel : Nat) :
    Option GetOut × State :=
  let memcacheKey := memKeyFor kind keyName propName
  match mcGet s.mc memcacheKey with
  | none =>
      match dsGet s.ds kind keyName with
      | none => (none, s)
      | some entity =>
          match propName with
          | some p =>
              match entity.getProp p with
              | none => (none, s)
              | some v =>
                  (some (.pv (.val v)), s.mcSetSwallow memcacheKey (.val v))
          | none =>
              (some (.ent entity),
               s.mcSetSwallow memcacheKey (.bytes (db_model_to_protobuf entity)))
  | some cached =>
      match propName with
      | some _ => (some (.pv cached), s)
      | none =>
          match db_model_from_protobuf cached with
          | some e => (some (.ent e), s)
          | none =>
              let s' := { s with mc := mcEraseKey s.mc memcacheKey }
              match fuel with
              | 0 => ((dsGet s'.ds kind keyName).map GetOut.ent, s')
              | n + 1 => MemcacheWrappedGetFuel s' kind keyName propName secs n

/-- MemcacheWrappedGet(key_name, prop_name, memcache_secs, retry). -/
def MemcacheWrappedGet (s : State) (kind keyName : String)
    (propName : Option String) (secs : Nat) (retry : Bool) :
    Option GetOut × State :=
  MemcacheWrappedGetFuel s kind keyName propName secs (cond retry 0 1)

/-- MemcacheWrappedGetFuel instrumented with the number of
db.model_from_protobuf decode attempts the call performs. -/
def MemcacheWrappedGetInstr (s : State) (kind keyName : String)
    (propName : Option String) (secs : Nat) (fuel : Nat) :
    (Option GetOut × State) × Nat :=
  let memcacheKey := memKeyFor kind keyName propName
  match mcGet s.mc memcacheKey with
  | none =>
      match dsGet s.ds kind keyName with
      | none => ((none, s), 0)
      | some entity =>
          match propName with
          | some p =>
              match entity.getProp p with
              | none => ((none, s), 0)
              | some v =>
                  ((some (.pv (.val v)), s.mcSetSwallow memcacheKey (.val v)), 0)
          | none =>
              ((some (.ent entity),
                s.mcSetSwallow memcacheKey (.bytes (db_model_to_protobuf entity))), 0)
  | some cached =>
      match propName with
      | some _ => ((some (.pv cached), s), 0)
      | none =>
          match db_model_from_protobuf cached with
          | some e => ((some (.ent e), s), 1)
          | none =>
              let s' := { s with mc := mcEraseKey s.mc memcacheKey }
              match fuel with
              | 0 => (((dsGet s'.ds kind keyName).map GetOut.ent, s'), 1)
              | n + 1 =>
                  let r := MemcacheWrappedGetInstr s' kind keyName propName secs n
                  (r.1, r.2 + 1)

/-- MemcacheWrappedSet(key_name, prop_name, value, memcache_secs):
get_or_insert the entity, set the property, put (which persists and
triggers the auto-update scheduling), then populate the field-level entry
with the raw value and the entity-level entry with the protobuf payload.
Neither memcache.set is wrapped in try/except, so a ValueError propagates
(the error carries the state at the raise: the durable write and any
earlier cache write have already happened). -/
def MemcacheWrappedSet (s : State) (kind keyName propName : String)
    (v : Value) (secs : Nat) : Except State State :=
  let memcacheEntityKey := mwgKey kind keyName
  let memcacheKey := mwgpnKey kind keyName propName
  let entity0 :=
    match dsGet s.ds kind keyName with
    | some e => e
    | none => ⟨kind, keyName, []⟩
  let entity := entity0.setProp propName v
  let s1 := put s entity
  match s1.mcSet? memcacheKey (.val v) with
  | none => .error s1
  | some s2 =>
      match s2.mcSet? memcacheEntityKey (.bytes (db_model_to_protobuf entity)) with
      | none => .error s2
      | some s3 => .ok s3

/-- MemcacheWrappedDelete(key_name, entity): exactly one of the two must
be supplied (ValueError otherwise); resolves the entity, deletes it from
the datastore when present, and deletes the entity-level cache entry.
Field-level entries are left behind (the source's own TODO). -/
def MemcacheWrappedDelete (s : State) (kind : String)
    (keyName : Option String) (entity : Option Entity) : Except State State :=
  match entity, keyName with
  | some e, _ =>
      let kn := e.keyName
      let s1 := { s with ds := dsEraseKey s.ds kind kn }
      .ok { s1 with mc := mcEraseKey s1.mc (mwgKey kind kn) }
  | none, some kn =>
      let s1 :=
        match dsGet s.ds kind kn with
        | some _ => { s with ds := dsEraseKey s.ds kind kn }
        | none => s
      .ok { s1 with mc := mcEraseKey s1.mc (mwgKey kind kn) }
  | none, none => .error s

/-- Python '%s' rendering of a filter value, as used in the memcache key
of MemcacheWrappedGetAllFilter.  (The rendering of an abstract serialized
text is unspecified; any concrete choice works for the claims.) -/
def pyRepr : Value → String
  | .str s => s
  | .int i => toString i
  | .bool b => cond b "True" "False"
  | .text (.junk s) => s
  | .text (.ser l) => String.intercalate "," l

/-- '|'.join(...), translated directly. -/
def joinPipe : List String → String
  | [] => ""
  | [x] => x
  | x :: y :: xs => x ++ "|" ++ joinPipe (y :: xs)

/-- filter_str = '|'.join(map(lambda x: '_%s,%s_' % (x[0], x[1]), filters)). -/
def filterStr (filters : List (String × Value)) : String :=
  joinPipe (filters.map (fun x => "_" ++ x.1 ++ "," ++ pyRepr x.2 ++ "_"))

/-- memcache_key = 'mwgaf_%s%s' % (cls.kind(), filter_str). -/
def mwgafKey (kind : String) (filters : List (String × Value)) : String :=
  "mwgaf_" ++ kind ++ filterStr filters

/-- One query filter ('prop =', value) applied to an entity.  The query
itself is the external durable store; the source only builds equality
filters of the form "name =" for this call, and only the key derivation
matters to the claims, so other comparators are modelled as not matching. -/
def evalFilter (e : Entity) (f : String × Value) : Bool :=
  match f.1.splitOn " " with
  | [p, op] => op = "=" ∧ e.getProp p = some f.2
  | _ => false

/-- cls.all() with the filters applied, fetch(limit). -/
def dsQuery (d : List Entity) (kind : String)
    (filters : List (String × Value)) (limit : Nat) : List Entity :=
  ((d.filter (fun e => e.kind = kind)).filter
    (fun e => filters.all (fun f => evalFilter e f))).take limit

/-- MemcacheWrappedGetAllFilter(filters, limit, memcache_secs): returns
whatever non-None object memcache holds at the derived key, else queries,
caches the result list (memcache.set not wrapped, so ValueError
propagates) and returns it. -/
def MemcacheWrappedGetAllFilter (s : State) (kind : String)
    (filters : List (String × Value)) (limit : Nat) (secs : Nat) :
    Except State (CacheVal × State) :=
  let memcacheKey := mwgafKey kind filters
  match mcGet s.mc memcacheKey with
  | some entities => .ok (entities, s)
  | none =>
      let entities := dsQuery s.ds kind filters limit
      match s.mcSet? memcacheKey (.entities entities) with
      | none => .error s
      | some s' => .ok (.entities entities, s')

/-! KeyValueCache.IpInList and its util helpers. -/

/-- Modelled from the spec: util.Deserialize is not under src/; per the
spec it decodes a util.Serialize()d value and raises DeserializeError on
anything else.  Applied to the object IpInList reads through
MemcacheWrappedGet: only a serialized list of strings decodes. -/
def Deserialize : CacheVal → Option (List String)
  | .val (.text (.ser l)) => some l
  | _ => none

/-- Python truthiness of the object MemcacheWrappedGet returned
(`if not ip_blocks_str`): empty strings, zero, and False are falsy; a
serialized non-trivial text is truthy. -/
def cacheValTruthy : CacheVal → Bool
  | .val (.str s) => ¬(s = "")
  | .val (.int i) => i ≠ 0
  | .val (.bool b) => b
  | .val (.text (.ser _)) => true
  | .val (.text (.junk s)) => ¬(s = "")
  | .bytes _ => true
  | .entity _ => true
  | .entities es => ¬es.isEmpty

/-- Split a character list at every occurrence of `c` (like str.split). -/
def splitChar (c : Char) : List Char → List (List Char)
  | [] => [[]]
  | x :: xs =>
      match splitChar c xs with
      | [] => [[]]
      | g :: gs => if x = c then [] :: g :: gs else (x :: g) :: gs

/-- Parse a non-empty all-digit character list as a decimal number. -/
def decNat? (l : List Char) : Option Nat :=
  if l.isEmpty then none
  else if l.all Char.isDigit then
    some (l.foldl (fun a c => a * 10 + (c.toNat - 48)) 0)
  else none

/-- Dotted-quad characters to the usual 32-bit integer (fields are
base-256 digits, most significant first). -/
def ipCharsToInt (l : List Char) : Nat :=
  (splitChar '.' l).foldl (fun acc f => acc * 256 + (decNat? f).getD 0) 0

/-- Modelled from the spec: util.IpToInt is not under src/; a dotted-quad
IPv4 string parses to the usual 32-bit integer. -/
def IpToInt (ip : String) : Nat :=
  ipCharsToInt ip.data

/-- Modelled from the spec: util.IpMaskToInts is not under src/; a
"network/bits" string parses to the (network-integer, mask-integer) pair
with mask the high `bits` bits of 32.  A string not of that shape yields
a pair that matches no address (the claims use well-formed entries only). -/
def IpMaskToInts (ipMaskStr : String) : Nat × Nat :=
  match splitChar '/' ipMaskStr.data with
  | [net, bits] =>
      let n := (decNat? bits).getD 0
      (ipCharsToInt net, 2 ^ 32 - 2 ^ (32 - n))
  | _ => (1, 0)

/-- KeyValueCache.IpInList(key_name, ip): empty input and anything
containing a colon (IPv6) return False; otherwise the serialized block
list is read through MemcacheWrappedGet(key_name, 'text_value'), with a
falsy or undeserializable result returning False; otherwise the entries
are scanned for `(ip_int & mask) == network`, True on the first match.
(A field-level get never yields a whole entity, and an absent result is
falsy, so those paths return False.) -/
def IpInList (s : State) (kind keyName ip : String) : Bool × State :=
  if ip = "" then (false, s)
  else if ip.data.contains ':' then (false, s)
  else
    let r := MemcacheWrappedGet s kind keyName (some "text_value") 300 false
    match r.1 with
    | none => (false, r.2)
    | some (.ent _) => (false, r.2)
    | some (.pv ipBlocksStr) =>
        if ¬cacheValTruthy ipBlocksStr then (false, r.2)
        else
          match Deserialize ipBlocksStr with
          | none => (false, r.2)
          | some ipBlocks =>
              let ipInt := IpToInt ip
              (ipBlocks.any (fun ipMaskStr =>
                 let ipMask := IpMaskToInts ipMaskStr
                 Nat.land ipInt ipMask.2 = ipMask.1), r.2)

/-! Lemmas about the collaborator models. -/

theorem mcRawGet_eraseKey_self (m : List (String × CacheVal)) (k : String) :
    mcRawGet (mcEraseKey m k) k = none := by
  induction m with
  | nil => rfl
  | cons p m ih =>
      obtain ⟨k', v⟩ := p
      by_cases h : k' = k <;> simp [mcEraseKey, mcRawGet, h, ih]

theorem mcRawGet_eraseKey_ne (m : List (String × CacheVal)) (k k' : String)
    (h : k' ≠ k) : mcRawGet (mcEraseKey m k) k' = mcRawGet m k' := by
  induction m with
  | nil => rfl
  | cons p m ih =>
      obtain ⟨a, v⟩ := p
      by_cases ha : a = k <;> by_cases hak : a = k' <;>
        simp_all [mcEraseKey, mcRawGet]

theorem mcGet_eraseKey_self (m : List (String × CacheVal)) (k : String) :
    mcGet (mcEraseKey m k) k = none := by
  simp [mcGet, mcRawGet_eraseKey_self]

theorem mcGet_mcSet_self (m : List (String × CacheVal)) (k : String)
    (v : CacheVal) (h : v ≠ .entity none) : mcGet (mcSet m k v) k = some v := by
  unfold mcGet mcSet
  simp only [mcRawGet, if_pos rfl]
  cases v with
  | entity e => cases e <;> simp_all
  | bytes p => rfl
  | val w => rfl
  | entities es => rfl

theorem mcGet_mcSet_ne (m : List (String × CacheVal)) (k k' : String)
    (v : CacheVal) (h : k' ≠ k) : mcGet (mcSet m k v) k' = mcGet m k' := by
  unfold mcGet mcSet
  simp only [mcRawGet, if_neg (fun hh : k = k' => h hh.symm)]
  rw [mcRawGet_eraseKey_ne m k k' h]

theorem dsGet_eraseKey_self (d : List Entity) (kind kn : String) :
    dsGet (dsEraseKey d kind kn) kind kn = none := by
  induction d with
  | nil => rfl
  | cons e d ih =>
      by_cases h : e.kind = kind ∧ e.keyName = kn <;>
        simp [dsEraseKey, dsGet, h, ih]

theorem dsGet_dsPut_self (d : List Entity) (e : Entity) :
    dsGet (dsPut d e) e.kind e.keyName = some e := by
  simp [dsPut, dsGet]

theorem mwgKey_data (kind kn : String) :
    (mwgKey kind kn).data = 'm' :: 'w' :: 'g' :: '_' :: (kind.data ++ '_' :: kn.data) := by
  simp [mwgKey, String.data_append,
    show ("mwg_" : String).data = ['m', 'w', 'g', '_'] from rfl,
    show ("_" : String).data = ['_'] from rfl]

theorem mwgpnKey_data (kind kn p : String) :
    (mwgpnKey kind kn p).data
      = 'm' :: 'w' :: 'g' :: 'p' :: 'n' :: '_'
          :: (kind.data ++ '_' :: (kn.data ++ '_' :: p.data)) := by
  simp [mwgpnKey, String.data_append,
    show ("mwgpn_" : String).data = ['m', 'w', 'g', 'p', 'n', '_'] from rfl,
    show ("_" : String).data = ['_'] from rfl]

theorem mwgKey_ne_mwgpnKey (kind kn kind' kn' p : String) :
    mwgKey kind kn ≠ mwgpnKey kind' kn' p := by
  intro h
  have h2 : (mwgKey kind kn).data = (mwgpnKey kind' kn' p).data := by rw [h]
  rw [mwgKey_data, mwgpnKey_data] at h2
  simp at h2

theorem put_eq (s : State) (e : Entity) :
    put s e = if s.tasks.isEmpty
      then { s with ds := dsPut s.ds e }
      else { s with ds := dsPut s.ds e, deferredDrains := s.deferredDrains + 1 } := by
  by_cases h : s.tasks.isEmpty <;> simp [put, MemcacheAutoUpdate, h]

theorem put_mc (s : State) (e : Entity) : (put s e).mc = s.mc := by
  rw [put_eq]; split <;> rfl

theorem put_failSetKeys (s : State) (e : Entity) :
    (put s e).failSetKeys = s.failSetKeys := by
  rw [put_eq]; split <;> rfl

/-- A successful MemcacheWrappedSet leaves the cache with the raw value at
the field-level key and then some payload at the (distinct) entity-level
key. -/
theorem set_ok_shape (s : State) (kind keyName propName : String)
    (v : Value) (secs : Nat) (s' : State)
    (h : MemcacheWrappedSet s kind keyName propName v secs = .ok s') :
    ∃ (m : List (String × CacheVal)) (w : CacheVal),
      s'.mc = mcSet (mcSet m (mwgpnKey kind keyName propName) (.val v))
                (mwgKey kind keyName) w := by
  unfold MemcacheWrappedSet at h
  split at h <;>
  · dsimp only [] at h
    split at h
    · exact absurd h (by simp)
    · rename_i s2 hm1
      split at h
      · exact absurd h (by simp)
      · rename_i s3 hm2
        injection h with h
        subst h
        unfold State.mcSet? at hm1 hm2
        split at hm1
        · exact absurd hm1 (by simp)
        · injection hm1 with hm1
          split at hm2
          · exact absurd hm2 (by simp)
          · injection hm2 with hm2
            subst hm2
            subst hm1
            exact ⟨_, _, rfl⟩

theorem mwgf_miss_absent (s : State) (kind kn : String) (pn : Option String)
    (secs fuel : Nat) (hc : mcGet s.mc (memKeyFor kind kn pn) = none)
    (hd : dsGet s.ds kind kn = none) :
    MemcacheWrappedGetFuel s kind kn pn secs fuel = (none, s) := by
  rw [MemcacheWrappedGetFuel.eq_def]
  simp [hc, hd]

theorem mwgf_miss_whole (s : State) (kind kn : String) (secs fuel : Nat)
    (e : Entity) (hc : mcGet s.mc (mwgKey kind kn) = none)
    (hd : dsGet s.ds kind kn = some e) :
    MemcacheWrappedGetFuel s kind kn none secs fuel
      = (some (.ent e),
         s.mcSetSwallow (mwgKey kind kn) (.bytes (db_model_to_protobuf e))) := by
  rw [MemcacheWrappedGetFuel.eq_def]
  simp [memKeyFor, hc, hd]

theorem mwgf_miss_prop (s : State) (kind kn p : String) (secs fuel : Nat)
    (e : Entity) (v : Value) (hc : mcGet s.mc (mwgpnKey kind kn p) = none)
    (hd : dsGet s.ds kind kn = some e) (hp : e.getProp p = some v) :
    MemcacheWrappedGetFuel s kind kn (some p) secs fuel
      = (some (.pv (.val v)), s.mcSetSwallow (mwgpnKey kind kn p) (.val v)) := by
  rw [MemcacheWrappedGetFuel.eq_def]
  simp [memKeyFor, hc, hd, hp]

theorem mwgf_miss_prop_absent (s : State) (kind kn p : String)
    (secs fuel : Nat) (e : Entity)
    (hc : mcGet s.mc (mwgpnKey kind kn p) = none)
    (hd : dsGet s.ds kind kn = some e) (hp : e.getProp p = none) :
    MemcacheWrappedGetFuel s kind kn (some p) secs fuel = (none, s) := by
  rw [MemcacheWrappedGetFuel.eq_def]
  simp [memKeyFor, hc, hd, hp]

theorem mwgf_hit_prop (s : State) (kind kn p : String) (secs fuel : Nat)
    (c : CacheVal) (hc : mcGet s.mc (mwgpnKey kind kn p) = some c) :
    MemcacheWrappedGetFuel s kind kn (some p) secs fuel
      = (some (.pv c), s) := by
  rw [MemcacheWrappedGetFuel.eq_def]
  simp [memKeyFor, hc]

theorem mwgf_hit_whole (s : State) (kind kn : String) (secs fuel : Nat)
    (c : CacheVal) (e : Entity) (hc : mcGet s.mc (mwgKey kind kn) = some c)
    (hd : db_model_from_protobuf c = some e) :
    MemcacheWrappedGetFuel s kind kn none secs fuel = (some (.ent e), s) := by
  rw [MemcacheWrappedGetFuel.eq_def]
  simp [memKeyFor, hc, hd]

theorem mwgf_corrupt_step (s : State) (kind kn : String) (secs fuel : Nat)
    (c : CacheVal) (hc : mcGet s.mc (mwgKey kind kn) = some c)
    (hd : db_model_from_protobuf c = none) :
    MemcacheWrappedGetFuel s kind kn none secs (fuel + 1)
      = MemcacheWrappedGetFuel { s with mc := mcEraseKey s.mc (mwgKey kind kn) }
          kind kn none secs fuel := by
  rw [MemcacheWrappedGetFuel.eq_def]
  simp [memKeyFor, hc, hd]

theorem mwgf_corrupt_last (s : State) (kind kn : String) (secs : Nat)
    (c : CacheVal) (hc : mcGet s.mc (mwgKey kind kn) = some c)
    (hd : db_model_from_protobuf c = none) :
    MemcacheWrappedGetFuel s kind kn none secs 0
      = ((dsGet s.ds kind kn).map GetOut.ent,
         { s with mc := mcEraseKey s.mc (mwgKey kind kn) }) := by
  rw [MemcacheWrappedGetFuel.eq_def]
  simp [memKeyFor, hc, hd]

/-! The claims. -/

/-- An initially empty world. -/
def emptyState : State := ⟨[], [], [], [], 0⟩

/-- C1: Round-trip law — for every entity type, key name, field name and
storable value, after a completed MemcacheWrappedSet(keyName, fieldName,
value, ttl), an immediate MemcacheWrappedGet(keyName, fieldName, ttl)
with the same prop_name returns exactly the value that was written; no
caching or encode/decode step loses information. -/
theorem C1_set_then_get_roundtrip (s : State) (kind keyName propName : String)
    (v : Value) (secs secs' : Nat) (s' : State)
    (h : MemcacheWrappedSet s kind keyName propName v secs = .ok s') :
    (MemcacheWrappedGet s' kind keyName (some propName) secs' false).1
      = some (.pv (.val v)) := by
  obtain ⟨m, w, hmc⟩ := set_ok_shape s kind keyName propName v secs s' h
  have hget : mcGet s'.mc (mwgpnKey kind keyName propName) = some (.val v) := by
    rw [hmc,
      mcGet_mcSet_ne _ _ _ _
        (Ne.symm (mwgKey_ne_mwgpnKey kind keyName kind keyName propName)),
      mcGet_mcSet_self _ _ _ (by simp)]
  unfold MemcacheWrappedGet MemcacheWrappedGetFuel memKeyFor
  simp [hget]

/-- The world after the concrete Set of the C1 witness. -/
def stateAfterSetC1 : State :=
  match MemcacheWrappedSet emptyState "M" "k" "p" (.bool true) 300 with
  | .ok s => s
  | .error s => s

/-- C1 witness: the round-trip law applied to a concrete write into the
empty world. -/
theorem C1_witness :
    (MemcacheWrappedGet stateAfterSetC1 "M" "k" (some "p") 300 false).1
      = some (.pv (.val (.bool true))) :=
  C1_set_then_get_roundtrip emptyState "M" "k" "p" (.bool true) 300 300
    stateAfterSetC1 rfl

/-- A generic entity used by the concrete witness worlds. -/
def e0 : Entity := ⟨"M", "k", [("p", .bool true)]⟩

/-- A world whose entity-level cache entry for e0 is an undecodable
payload while the durable store holds e0. -/
def corruptState : State :=
  ⟨[e0], [(mwgKey "M" "k", .bytes (.corrupt 7))], [], [], 0⟩

/-- C2: Corruption self-healing — when the entity exists in the durable
store and the entity-level cache entry holds an undecodable payload (and
the cache client accepts the re-population write), a single whole-entity
MemcacheWrappedGet returns the correct entity from the durable store
without surfacing any error, and as a side effect replaces the corrupted
cache entry with a valid, decodable protobuf payload. -/
theorem C2_corrupt_cache_selfheal (s : State) (kind kn : String)
    (e : Entity) (c : CacheVal) (secs : Nat)
    (hds : dsGet s.ds kind kn = some e)
    (hc : mcGet s.mc (mwgKey kind kn) = some c)
    (hdec : db_model_from_protobuf c = none)
    (hok : mwgKey kind kn ∉ s.failSetKeys) :
    (MemcacheWrappedGet s kind kn none secs false).1 = some (.ent e)
    ∧ mcGet (MemcacheWrappedGet s kind kn none secs false).2.mc
        (mwgKey kind kn) = some (.bytes (db_model_to_protobuf e))
    ∧ db_model_from_protobuf (.bytes (db_model_to_protobuf e)) = some e := by
  have h1 : MemcacheWrappedGet s kind kn none secs false
      = MemcacheWrappedGetFuel
          { s with mc := mcEraseKey s.mc (mwgKey kind kn) } kind kn none secs 0 :=
    mwgf_corrupt_step s kind kn secs 0 c hc hdec
  have h2 : MemcacheWrappedGetFuel
      { s with mc := mcEraseKey s.mc (mwgKey kind kn) } kind kn none secs 0
      = (some (.ent e),
         State.mcSetSwallow { s with mc := mcEraseKey s.mc (mwgKey kind kn) }
           (mwgKey kind kn) (.bytes (db_model_to_protobuf e))) :=
    mwgf_miss_whole _ kind kn secs 0 e (mcGet_eraseKey_self _ _) hds
  have hswal : State.mcSetSwallow { s with mc := mcEraseKey s.mc (mwgKey kind kn) }
      (mwgKey kind kn) (.bytes (db_model_to_protobuf e))
      = { s with mc := mcSet (mcEraseKey s.mc (mwgKey kind kn)) (mwgKey kind kn)
                         (.bytes (db_model_to_protobuf e)) } := by
    unfold State.mcSetSwallow State.mcSet?
    rw [if_neg hok]
    rfl
  rw [h1, h2, hswal]
  exact ⟨rfl, mcGet_mcSet_self _ _ _ (by simp), rfl⟩

/-- C2 witness: self-healing at a concrete corrupted world. -/
theorem C2_witness :
    (MemcacheWrappedGet corruptState "M" "k" none 300 false).1 = some (.ent e0)
    ∧ mcGet (MemcacheWrappedGet corruptState "M" "k" none 300 false).2.mc
        (mwgKey "M" "k") = some (.bytes (db_model_to_protobuf e0))
    ∧ db_model_from_protobuf (.bytes (db_model_to_protobuf e0)) = some e0 :=
  C2_corrupt_cache_selfheal corruptState "M" "k" e0 (.bytes (.corrupt 7)) 300
    rfl rfl rfl (by decide)

/-- The instrumented Get agrees with the plain one and performs at most
fuel + 1 decode attempts. -/
theorem instr_agree (fuel : Nat) :
    ∀ (s : State) (kind kn : String) (pn : Option String) (secs : Nat),
      (MemcacheWrappedGetInstr s kind kn pn secs fuel).1
        = MemcacheWrappedGetFuel s kind kn pn secs fuel
      ∧ (MemcacheWrappedGetInstr s kind kn pn secs fuel).2 ≤ fuel + 1 := by
  induction fuel with
  | zero =>
      intro s kind kn pn secs
      rw [MemcacheWrappedGetInstr.eq_def, MemcacheWrappedGetFuel.eq_def]
      dsimp only []
      cases hm : mcGet s.mc (memKeyFor kind kn pn) with
      | none =>
          cases hd : dsGet s.ds kind kn with
          | none => simp
          | some e =>
              cases pn with
              | none => simp
              | some p =>
                  cases hp : e.getProp p with
                  | none => simp [hp]
                  | some v => simp [hp]
      | some c =>
          cases pn with
          | some p => simp
          | none =>
              cases hdec : db_model_from_protobuf c with
              | some e => simp [hdec]
              | none => simp [hdec]
  | succ n ih =>
      intro s kind kn pn secs
      rw [MemcacheWrappedGetInstr.eq_def, MemcacheWrappedGetFuel.eq_def]
      dsimp only []
      cases hm : mcGet s.mc (memKeyFor kind kn pn) with
      | none =>
          cases hd : dsGet s.ds kind kn with
          | none => simp
          | some e =>
              cases pn with
              | none => simp
              | some p =>
                  cases hp : e.getProp p with
                  | none => simp [hp]
                  | some v => simp [hp]
      | some c =>
          cases pn with
          | some p => simp
          | none =>
              cases hdec : db_model_from_protobuf c with
              | some e => simp [hdec]
              | none =>
                  have h := ih { s with mc := mcEraseKey s.mc (memKeyFor kind kn none) }
                    kind kn none secs
                  simp only [hdec]
                  refine ⟨h.1, ?_⟩
                  have h2 := h.2
                  omega

/-- C3: Bounded corruption retry — on the first decode failure the
whole-entity Get deletes the stale cache entry and re-runs itself exactly
once with the retry flag set; on a decode failure with the retry flag
already set it falls back to a direct durable-store read, bypassing the
cache (no re-population); and, by the decode-attempt instrumentation
(which agrees with MemcacheWrappedGet), any call performs at most two
decode attempts, so repeated corruption cannot loop. -/
theorem C3_bounded_decode_retry :
    (∀ (s : State) (kind kn : String) (secs : Nat) (c : CacheVal),
        mcGet s.mc (mwgKey kind kn) = some c →
        db_model_from_protobuf c = none →
        MemcacheWrappedGet s kind kn none secs false
          = MemcacheWrappedGet
              { s with mc := mcEraseKey s.mc (mwgKey kind kn) }
              kind kn none secs true)
    ∧ (∀ (s : State) (kind kn : String) (secs : Nat) (c : CacheVal),
        mcGet s.mc (mwgKey kind kn) = some c →
        db_model_from_protobuf c = none →
        MemcacheWrappedGet s kind kn none secs true
          = ((dsGet s.ds kind kn).map GetOut.ent,
             { s with mc := mcEraseKey s.mc (mwgKey kind kn) }))
    ∧ (∀ (s : State) (kind kn : String) (pn : Option String) (secs : Nat)
        (retry : Bool),
        (MemcacheWrappedGetInstr s kind kn pn secs (cond retry 0 1)).1
          = MemcacheWrappedGet s kind kn pn secs retry
        ∧ (MemcacheWrappedGetInstr s kind kn pn secs (cond retry 0 1)).2 ≤ 2) := by
  refine ⟨?_, ?_, ?_⟩
  · intro s kind kn secs c hc hdec
    unfold MemcacheWrappedGet
    exact mwgf_corrupt_step s kind kn secs 0 c hc hdec
  · intro s kind kn secs c hc hdec
    unfold MemcacheWrappedGet
    exact mwgf_corrupt_last s kind kn secs c hc hdec
  · intro s kind kn pn secs retry
    have h := instr_agree (cond retry 0 1) s kind kn pn secs
    refine ⟨h.1, ?_⟩
    have h2 := h.2
    cases retry <;>
      simp only [Bool.cond_false, Bool.cond_true] at h2 ⊢ <;> omega

/-- C3 witness: the single retry step at a concrete corrupted world. -/
theorem C3_witness :
    MemcacheWrappedGet corruptState "M" "k" none 300 false
      = MemcacheWrappedGet
          { corruptState with mc := mcEraseKey corruptState.mc (mwgKey "M" "k") }
          "M" "k" none 300 true :=
  C3_bounded_decode_retry.1 corruptState "M" "k" 300 (.bytes (.corrupt 7)) rfl rfl

/-- A world where e0 is stored and its field "p" is cached field-level. -/
def fieldCachedState : State :=
  ⟨[e0], [(mwgpnKey "M" "k" "p", .val (.bool true))], [], [], 0⟩

/-- C5 counterexample: with entity e0 in the durable store and its field
"p" populated in the field-level cache, a field-level Get immediately
after MemcacheWrappedDelete("k") still returns the stale cached value,
not absent — the delete does not sweep field-level entries. -/
theorem C5_counterexample :
    (match MemcacheWrappedDelete fieldCachedState "M" (some "k") none with
     | .ok s1 => (MemcacheWrappedGet s1 "M" "k" (some "p") 300 false).1
     | .error _ => none) = some (.pv (.val (.bool true))) := by decide

/-- C5 amended: after MemcacheWrappedDelete(keyName), a whole-entity Get
returns absent regardless of what previously existed in cache, store,
both or neither; a field-level Get returns absent provided no field-level
cache entry for that field is present after the delete (the delete leaves
field-level entries behind, per the source's own TODO). -/
theorem C5_delete_then_get_absent (s : State) (kind kn : String) (s1 : State)
    (h : MemcacheWrappedDelete s kind (some kn) none = .ok s1) :
    (∀ (secs : Nat) (retry : Bool),
       (MemcacheWrappedGet s1 kind kn none secs retry).1 = none)
    ∧ (∀ (p : String) (secs : Nat) (retry : Bool),
       mcGet s1.mc (mwgpnKey kind kn p) = none →
       (MemcacheWrappedGet s1 kind kn (some p) secs retry).1 = none) := by
  unfold MemcacheWrappedDelete at h
  dsimp only [] at h
  have key : dsGet s1.ds kind kn = none ∧ mcGet s1.mc (mwgKey kind kn) = none := by
    cases hd : dsGet s.ds kind kn with
    | some e =>
        rw [hd] at h
        dsimp only [] at h
        injection h with h
        subst h
        exact ⟨dsGet_eraseKey_self _ _ _, mcGet_eraseKey_self _ _⟩
    | none =>
        rw [hd] at h
        dsimp only [] at h
        injection h with h
        subst h
        exact ⟨hd, mcGet_eraseKey_self _ _⟩
  obtain ⟨hds, hmc⟩ := key
  constructor
  · intro secs retry
    unfold MemcacheWrappedGet
    rw [mwgf_miss_absent _ _ _ _ _ _ hmc hds]
  · intro p secs retry hpc
    unfold MemcacheWrappedGet
    rw [mwgf_miss_absent _ _ _ _ _ _ hpc hds]

/-- The world after the C5 delete. -/
def afterDeleteC5 : State :=
  match MemcacheWrappedDelete fieldCachedState "M" (some "k") none with
  | .ok s => s
  | .error s => s

/-- C5 witness: both Gets return absent after a concrete delete (the
field-level one for a field that was never cached). -/
theorem C5_witness :
    (MemcacheWrappedGet afterDeleteC5 "M" "k" none 300 false).1 = none
    ∧ (MemcacheWrappedGet afterDeleteC5 "M" "k" (some "q") 300 false).1 = none :=
  ⟨(C5_delete_then_get_absent fieldCachedState "M" "k" afterDeleteC5 rfl).1
      300 false,
   (C5_delete_then_get_absent fieldCachedState "M" "k" afterDeleteC5 rfl).2
      "q" 300 false (by decide)⟩

/-- A world where the field-level cache key for ("M","k","p") is
oversized: the cache client raises ValueError on set. -/
def oversizedFieldState : State := ⟨[], [], [mwgpnKey "M" "k" "p"], [], 0⟩

/-- C4 counterexample: a MemcacheWrappedSet whose durable write succeeds
but whose field-level cache population raises ValueError propagates the
error to the caller — the result is an exception whose state already
contains the durably written entity, so the overall Set did not
"still succeed". -/
theorem C4_counterexample :
    (match MemcacheWrappedSet oversizedFieldState "M" "k" "p" (.bool true) 300 with
     | .ok _ => none
     | .error serr => dsGet serr.ds "M" "k")
      = some (Entity.setProp ⟨"M", "k", []⟩ "p" (.bool true)) := by decide

/-- C4 amended: a cache-population ValueError is caught, logged and
swallowed in MemcacheWrappedGet's miss path (the Get still returns the
entity and the state is unchanged); but in MemcacheWrappedSet neither
memcache.set is guarded, so a ValueError on the cache population
propagates to the caller even though the durable write succeeded. -/
theorem C4_cache_write_failure_paths :
    (∀ (s : State) (kind kn : String) (secs : Nat) (e : Entity),
        mcGet s.mc (mwgKey kind kn) = none →
        dsGet s.ds kind kn = some e →
        mwgKey kind kn ∈ s.failSetKeys →
        MemcacheWrappedGet s kind kn none secs false = (some (.ent e), s))
    ∧ (∀ (s : State) (kind kn p : String) (secs : Nat) (v : Value),
        mwgpnKey kind kn p ∈ s.failSetKeys →
        ∃ serr, MemcacheWrappedSet s kind kn p v secs = .error serr) := by
  constructor
  · intro s kind kn secs e hc hd hfail
    unfold MemcacheWrappedGet
    rw [show (bif false then 0 else 1) = 1 from rfl,
      mwgf_miss_whole s kind kn secs 1 e hc hd]
    have hs : State.mcSetSwallow s (mwgKey kind kn)
        (.bytes (db_model_to_protobuf e)) = s := by
      unfold State.mcSetSwallow State.mcSet?
      rw [if_pos hfail]
      rfl
    rw [hs]
  · intro s kind kn p secs v hfail
    have hfailP : ∀ (t : State), t.failSetKeys = s.failSetKeys →
        t.mcSet? (mwgpnKey kind kn p) (.val v) = none := by
      intro t ht
      unfold State.mcSet?
      rw [ht, if_pos hfail]
    unfold MemcacheWrappedSet
    dsimp only []
    cases hd : dsGet s.ds kind kn with
    | some e =>
        rw [hfailP _ (put_failSetKeys _ _)]
        exact ⟨_, rfl⟩
    | none =>
        rw [hfailP _ (put_failSetKeys _ _)]
        exact ⟨_, rfl⟩

/-- A world where the entity-level cache key for ("M","k") is oversized. -/
def oversizedEntityState : State := ⟨[e0], [], [mwgKey "M" "k"], [], 0⟩

/-- C4 witness: the swallowed miss-path failure at a concrete world whose
entity-level key is oversized. -/
theorem C4_witness :
    MemcacheWrappedGet oversizedEntityState "M" "k" none 300 false
      = (some (.ent e0), oversizedEntityState) :=
  C4_cache_write_failure_paths.1 oversizedEntityState "M" "k" 300 e0
    rfl rfl (by decide)

/-- The drain loop runs the prefix of non-raising tasks, then the first
raising task (which aborts it); an exception escapes iff some task
raises. -/
theorem runTasks_spec (l : List AutoTask) :
    (runTasks l).1
      = (l.takeWhile (fun t => !t.fails)).map AutoTask.tid
        ++ ((l.dropWhile (fun t => !t.fails)).head?.map AutoTask.tid).toList
    ∧ (runTasks l).2
      = (if l.all (fun t => !t.fails) then Except.ok () else Except.error ()) := by
  induction l with
  | nil => simp [runTasks]
  | cons t ts ih =>
      by_cases hf : t.fails
      · simp [runTasks, hf]
      · simp [runTasks, hf, ih.1, ih.2]

/-- A type with two registered tasks whose first callback raises. -/
def failDrainState : State := ⟨[], [], [], [⟨0, true⟩, ⟨1, false⟩], 0⟩

/-- C6 counterexample: a drain over registered tasks [0 (raises), 1] runs
only callback 0; the remaining task 1 never runs and the exception
escapes the drain — refuting exception isolation. -/
theorem C6_counterexample :
    MemcacheAutoUpdate failDrainState true = ([0], .error failDrainState)
    ∧ failDrainState.tasks.map AutoTask.tid = [0, 1] :=
  ⟨rfl, rfl⟩

/-- C6 amended: a drain runs the registered tasks in registration order
up to and including the first raising task; tasks after it do not run and
the exception propagates out of the drain; when no task raises, every
registered task runs exactly once. -/
theorem C6_drain_stops_at_first_raise (s : State)
    (h : s.tasks.isEmpty = false) :
    (MemcacheAutoUpdate s true).1
      = (s.tasks.takeWhile (fun t => !t.fails)).map AutoTask.tid
        ++ ((s.tasks.dropWhile (fun t => !t.fails)).head?.map AutoTask.tid).toList
    ∧ (MemcacheAutoUpdate s true).2
      = (if s.tasks.all (fun t => !t.fails)
         then .ok s else .error s) := by
  obtain ⟨h1, h2⟩ := runTasks_spec s.tasks
  rcases hrt : runTasks s.tasks with ⟨ids, r⟩
  rw [hrt] at h1 h2
  simp only [] at h1 h2
  unfold MemcacheAutoUpdate
  rw [h]
  simp only [Bool.false_eq_true, if_false, hrt]
  cases r with
  | ok u =>
      cases u
      by_cases hall : s.tasks.all (fun t => !t.fails) = true
      · exact ⟨by simpa using h1, by simp [hall]⟩
      · rw [if_neg hall] at h2
        exact absurd h2 (by simp)
  | error u =>
      cases u
      by_cases hall : s.tasks.all (fun t => !t.fails) = true
      · rw [if_pos hall] at h2
        exact absurd h2 (by simp)
      · exact ⟨by simpa using h1, by simp [hall]⟩

/-- C6 witness: the drain characterization at the concrete two-task
world. -/
theorem C6_witness :
    (MemcacheAutoUpdate failDrainState true).1
      = (failDrainState.tasks.takeWhile (fun t => !t.fails)).map AutoTask.tid
        ++ ((failDrainState.tasks.dropWhile (fun t => !t.fails)).head?.map
             AutoTask.tid).toList
    ∧ (MemcacheAutoUpdate failDrainState true).2
      = (if failDrainState.tasks.all (fun t => !t.fails)
         then .ok failDrainState else .error failDrainState) :=
  C6_drain_stops_at_first_raise failDrainState rfl

/-- A type with five registered (non-raising) update tasks. -/
def fiveTasksState : State :=
  ⟨[], [], [], [⟨0, false⟩, ⟨1, false⟩, ⟨2, false⟩, ⟨3, false⟩, ⟨4, false⟩], 0⟩

/-- C7 counterexample: with five registered tasks, two writes within the
delay window schedule two deferred drain cycles, not one — there is no
Idle/Scheduled gating. -/
theorem C7_counterexample :
    (put (put fiveTasksState e0) e0).deferredDrains = 2
    ∧ fiveTasksState.deferredDrains = 0 := by decide

/-- Every list all of whose elements satisfy p is its own takeWhile. -/
theorem takeWhile_of_all (l : List AutoTask) (p : AutoTask → Bool)
    (h : l.all p = true) :
    l.takeWhile p = l ∧ l.dropWhile p = [] := by
  induction l with
  | nil => simp
  | cons a l ih =>
      simp only [List.all_cons, Bool.and_eq_true] at h
      simp [List.takeWhile_cons, List.dropWhile_cons, h.1, (ih h.2).1,
        (ih h.2).2]

/-- C7 amended: registering a task schedules no drain; each write (put)
of a type with a nonempty registered task list schedules exactly one
deferred drain cycle (one per write, with no Idle-state gating); a type
with no registered tasks schedules nothing; and a single drain cycle runs
every registered task exactly once, in registration order, when none
raises. -/
theorem C7_write_schedules_one_drain :
    (∀ (s : State) (t : AutoTask),
       (MemcacheAddAutoUpdateTask s t).deferredDrains = s.deferredDrains)
    ∧ (∀ (s : State) (e : Entity), s.tasks.isEmpty = false →
       (put s e).deferredDrains = s.deferredDrains + 1)
    ∧ (∀ (s : State) (e : Entity), s.tasks.isEmpty = true →
       (put s e).deferredDrains = s.deferredDrains)
    ∧ (∀ (s : State), s.tasks.all (fun t => !t.fails) = true →
       (MemcacheAutoUpdate s true).1 = s.tasks.map AutoTask.tid) := by
  refine ⟨?_, ?_, ?_, ?_⟩
  · intro s t
    simp [MemcacheAddAutoUpdateTask]
  · intro s e h
    rw [put_eq]
    simp [h]
  · intro s e h
    rw [put_eq]
    simp [h]
  · intro s hall
    by_cases he : s.tasks.isEmpty = true
    · have : s.tasks = [] := by
        cases hts : s.tasks
        · rfl
        · rw [hts] at he
          simp at he
      simp [MemcacheAutoUpdate, he, this]
    · obtain ⟨htw, hdw⟩ := takeWhile_of_all s.tasks (fun t => !t.fails) hall
      have h1 := (runTasks_spec s.tasks).1
      rw [htw, hdw] at h1
      simp only [List.head?, Option.map, Option.toList, List.append_nil] at h1
      unfold MemcacheAutoUpdate
      rcases hrt : runTasks s.tasks with ⟨ids, r⟩
      rw [hrt] at h1
      simp only [] at h1
      rw [if_neg he]
      simp only [Bool.true_eq_false, if_false, hrt]
      cases r with
      | ok u => cases u; simpa using h1
      | error u => cases u; simpa using h1

/-- C7 witness: the scheduling behaviour at concrete worlds. -/
theorem C7_witness :
    ((MemcacheAddAutoUpdateTask emptyState ⟨0, false⟩).deferredDrains
       = emptyState.deferredDrains)
    ∧ (put fiveTasksState e0).deferredDrains
        = fiveTasksState.deferredDrains + 1
    ∧ (put emptyState e0).deferredDrains = emptyState.deferredDrains
    ∧ (MemcacheAutoUpdate fiveTasksState true).1
        = fiveTasksState.tasks.map AutoTask.tid :=
  ⟨C7_write_schedules_one_drain.1 emptyState ⟨0, false⟩,
   C7_write_schedules_one_drain.2.1 fiveTasksState e0 rfl,
   C7_write_schedules_one_drain.2.2.1 emptyState e0 rfl,
   C7_write_schedules_one_drain.2.2.2 fiveTasksState rfl⟩

/-- A world holding only the entity e0, with an empty cache. -/
def resetStateC10 : State := ⟨[e0], [], [], [], 0⟩

/-- C10: evaluation of ResetMemcacheWrap at the failing input — contrary
to the entity-level payload-format invariant (and to the function's own
docstring, which says it deletes the cached entity), ResetMemcacheWrap
memcache.set's the raw entity object at the mwg_ key when the entity
exists (a payload db.model_from_protobuf cannot decode), and a raw None
placeholder when it does not (which then reads back as a miss). -/
theorem C10_resetmemcachewrap_stores_raw_object :
    (match ResetMemcacheWrap resetStateC10 "M" "k" 300 with
     | .ok s1 => mcRawGet s1.mc (mwgKey "M" "k")
     | .error _ => none) = some (.entity (some e0))
    ∧ db_model_from_protobuf (.entity (some e0)) = none
    ∧ (match ResetMemcacheWrap emptyState "M" "missing" 300 with
       | .ok s1 => mcRawGet s1.mc (mwgKey "M" "missing")
       | .error _ => none) = some (.entity none)
    ∧ (match ResetMemcacheWrap emptyState "M" "missing" 300 with
       | .ok s1 => mcGet s1.mc (mwgKey "M" "missing")
       | .error _ => none) = none := by decide

/-- The cached serialized IP block list of the spec's test vector. -/
def ipBlocksState : State :=
  ⟨[], [(mwgpnKey "KeyValueCache" "bad_ip" "text_value",
         .val (.text (.ser ["10.0.0.0/8", "192.168.1.0/24"])))], [], [], 0⟩

/-- C9: IpInList returns false for empty input and for any input holding
a colon (IPv6); with a cached serialized block list it returns true iff
some network/mask entry matches under (ipInt & mask) == network; it
returns false when the wrapped get yields nothing (list absent) and when
the cached text fails to deserialize; and on the spec's concrete vector
["10.0.0.0/8", "192.168.1.0/24"] it accepts "10.1.2.3" and rejects
"8.8.8.8", "::1" and "". -/
theorem C9_ipinlist_membership :
    (∀ (s : State) (kind kn : String),
       (IpInList s kind kn "").1 = false)
    ∧ (∀ (s : State) (kind kn ip : String),
       ip.data.contains ':' = true → (IpInList s kind kn ip).1 = false)
    ∧ (∀ (s : State) (kind kn ip : String) (l : List String),
       mcGet s.mc (mwgpnKey kind kn "text_value")
           = some (.val (.text (.ser l))) →
       ¬(ip = "") → ip.data.contains ':' = false →
       (IpInList s kind kn ip).1
         = l.any (fun ipMaskStr =>
             Nat.land (IpToInt ip) (IpMaskToInts ipMaskStr).2
               = (IpMaskToInts ipMaskStr).1))
    ∧ (∀ (s : State) (kind kn ip : String),
       (MemcacheWrappedGet s kind kn (some "text_value") 300 false).1 = none →
       (IpInList s kind kn ip).1 = false)
    ∧ (∀ (s : State) (kind kn ip j : String),
       mcGet s.mc (mwgpnKey kind kn "text_value")
           = some (.val (.text (.junk j))) →
       (IpInList s kind kn ip).1 = false)
    ∧ ((IpInList ipBlocksState "KeyValueCache" "bad_ip" "10.1.2.3").1 = true
       ∧ (IpInList ipBlocksState "KeyValueCache" "bad_ip" "8.8.8.8").1 = false
       ∧ (IpInList ipBlocksState "KeyValueCache" "bad_ip" "::1").1 = false
       ∧ (IpInList ipBlocksState "KeyValueCache" "bad_ip" "").1 = false) := by
  refine ⟨?_, ?_, ?_, ?_, ?_, by decide, by decide, by decide, by decide⟩
  · intro s kind kn
    simp [IpInList]
  · intro s kind kn ip h
    have h2 : ':' ∈ ip.data := by simpa using h
    by_cases he : ip = "" <;> simp [IpInList, he, h2]
  · intro s kind kn ip l hc hne hcol
    have hget := mwgf_hit_prop s kind kn "text_value" 300 1
      (.val (.text (.ser l))) hc
    have hcol2 : ':' ∉ ip.data := by simpa using hcol
    simp [IpInList, hne, hcol2, MemcacheWrappedGet, hget, cacheValTruthy,
      Deserialize]
  · intro s kind kn ip h
    by_cases he : ip = ""
    · simp [IpInList, he]
    · by_cases hcol : ':' ∈ ip.data
      · simp [IpInList, he, hcol]
      · simp [IpInList, he, hcol, h]
  · intro s kind kn ip j hc
    have hget := mwgf_hit_prop s kind kn "text_value" 300 1
      (.val (.text (.junk j))) hc
    by_cases he : ip = ""
    · simp [IpInList, he]
    · by_cases hcol : ':' ∈ ip.data
      · simp [IpInList, he, hcol]
      · by_cases hj : j = "" <;>
          simp [IpInList, he, hcol, MemcacheWrappedGet, hget, cacheValTruthy,
            Deserialize, hj]

/-- C9 witness: the membership formula instantiated at the concrete
cached block list and input "10.1.2.3". -/
theorem C9_witness :
    (IpInList ipBlocksState "KeyValueCache" "bad_ip" "10.1.2.3").1
      = (["10.0.0.0/8", "192.168.1.0/24"].any (fun ipMaskStr =>
           Nat.land (IpToInt "10.1.2.3") (IpMaskToInts ipMaskStr).2
             = (IpMaskToInts ipMaskStr).1)) :=
  C9_ipinlist_membership.2.2.1 ipBlocksState "KeyValueCache" "bad_ip"
    "10.1.2.3" ["10.0.0.0/8", "192.168.1.0/24"] rfl (by decide) (by decide)

/-- A comparator or value string avoiding the three separator characters
of the filter cache key encoding. -/
def cleanStr (x : String) : Bool :=
  x.data.all (fun c => !(c == ',' || c == '|' || c == '_'))

/-- The character shape of one rendered filter item
'_%s,%s_' % (f, v). -/
def itemChars (f v : String) : List Char :=
  '_' :: (f.data ++ ',' :: (v.data ++ ['_']))

/-- joinPipe at the character level. -/
def joinChars : List (List Char) → List Char
  | [] => []
  | [x] => x
  | x :: y :: xs => x ++ '|' :: joinChars (y :: xs)

/-- The filters a caller builds from string-valued predicates. -/
def strFilters (fs : List (String × String)) : List (String × Value) :=
  fs.map (fun x => (x.1, Value.str x.2))

theorem cleanStr_spec (x : String) (h : cleanStr x = true) :
    ∀ ch ∈ x.data, ch ≠ ',' ∧ ch ≠ '|' ∧ ch ≠ '_' := by
  intro ch hch
  simp only [cleanStr, List.all_eq_true] at h
  have h2 := h ch hch
  simp only [Bool.not_eq_true', Bool.or_eq_false_iff, beq_eq_false_iff_ne,
    ne_eq] at h2
  exact ⟨h2.1.1, h2.1.2, h2.2⟩

theorem joinPipe_data (l : List String) :
    (joinPipe l).data = joinChars (l.map String.data) := by
  induction l with
  | nil => rfl
  | cons x xs ih =>
      cases xs with
      | nil => rfl
      | cons y ys =>
          show (x ++ "|" ++ joinPipe (y :: ys)).data = _
          simp only [String.data_append,
            show ("|" : String).data = ['|'] from rfl, List.map_cons,
            joinChars, ih, List.append_assoc, List.singleton_append]

theorem item_data (f v : String) :
    ("_" ++ f ++ "," ++ pyRepr (.str v) ++ "_").data = itemChars f v := by
  simp [pyRepr, itemChars, String.data_append,
    show ("_" : String).data = ['_'] from rfl,
    show ("," : String).data = [','] from rfl]

theorem sep_inj (c : Char) :
    ∀ (a a' b b' : List Char), (∀ x ∈ a, x ≠ c) → (∀ x ∈ a', x ≠ c) →
      a ++ c :: b = a' ++ c :: b' → a = a' ∧ b = b' := by
  intro a
  induction a with
  | nil =>
      intro a' b b' _ h2 h3
      cases a' with
      | nil => simp_all
      | cons y ys =>
          simp only [List.nil_append, List.cons_append, List.cons.injEq] at h3
          exact absurd h3.1.symm (h2 y (by simp))
  | cons x xs ih =>
      intro a' b b' h1 h2 h3
      cases a' with
      | nil =>
          simp only [List.nil_append, List.cons_append, List.cons.injEq] at h3
          exact absurd h3.1 (h1 x (by simp))
      | cons y ys =>
          simp only [List.cons_append, List.cons.injEq] at h3
          obtain ⟨hxy, h4⟩ := h3
          obtain ⟨ha, hb⟩ := ih ys b b'
            (fun z hz => h1 z (by simp [hz]))
            (fun z hz => h2 z (by simp [hz])) h4
          exact ⟨by rw [hxy, ha], hb⟩

theorem itemChars_inj (f v f' v' : String) (r r' : List Char)
    (hf : ∀ ch ∈ f.data, ch ≠ ',') (hf' : ∀ ch ∈ f'.data, ch ≠ ',')
    (hv : ∀ ch ∈ v.data, ch ≠ '_') (hv' : ∀ ch ∈ v'.data, ch ≠ '_')
    (h : itemChars f v ++ r = itemChars f' v' ++ r') :
    f = f' ∧ v = v' ∧ r = r' := by
  simp only [itemChars, List.cons_append, List.append_assoc,
    List.singleton_append, List.cons.injEq, true_and] at h
  obtain ⟨hfd, h2⟩ := sep_inj ',' f.data f'.data _ _ hf hf' h
  obtain ⟨hvd, h3⟩ := sep_inj '_' v.data v'.data _ _ hv hv' h2
  exact ⟨String.ext hfd, String.ext hvd, h3⟩

theorem joinChars_cons (x : List Char) (xs : List (List Char)) :
    joinChars (x :: xs)
      = x ++ (match xs with | [] => [] | _ :: _ => '|' :: joinChars xs) := by
  cases xs <;> simp [joinChars]

theorem joined_inj :
    ∀ (fs gs : List (String × String)),
      (∀ x ∈ fs, cleanStr x.1 = true ∧ cleanStr x.2 = true) →
      (∀ x ∈ gs, cleanStr x.1 = true ∧ cleanStr x.2 = true) →
      joinChars (fs.map (fun x => itemChars x.1 x.2))
        = joinChars (gs.map (fun x => itemChars x.1 x.2)) →
      fs = gs := by
  intro fs
  induction fs with
  | nil =>
      intro gs _ _ h
      cases gs with
      | nil => rfl
      | cons g gs' =>
          rw [List.map_cons, joinChars_cons] at h
          simp [itemChars, joinChars] at h
  | cons f fs' ih =>
      intro gs hf hg h
      cases gs with
      | nil =>
          rw [List.map_cons, joinChars_cons] at h
          simp [itemChars, joinChars] at h
      | cons g gs' =>
          rw [List.map_cons, List.map_cons, joinChars_cons, joinChars_cons] at h
          have hfc := hf f (by simp)
          have hgc := hg g (by simp)
          obtain ⟨h1, h2, h3⟩ := itemChars_inj f.1 f.2 g.1 g.2 _ _
            (fun ch hch => ((cleanStr_spec _ hfc.1) ch hch).1)
            (fun ch hch => ((cleanStr_spec _ hgc.1) ch hch).1)
            (fun ch hch => ((cleanStr_spec _ hfc.2) ch hch).2.2)
            (fun ch hch => ((cleanStr_spec _ hgc.2) ch hch).2.2)
            h
          have hfg : f = g := by
            cases f; cases g; simp_all
          cases fs' with
          | nil =>
              cases gs' with
              | nil => simp [hfg]
              | cons g2 gs'' => simp at h3
          | cons f2 fs'' =>
              cases gs' with
              | nil => simp at h3
              | cons g2 gs'' =>
                  simp only [List.map_cons, List.cons.injEq] at h3
                  have h4 := ih (g2 :: gs'')
                    (fun x hx => hf x (by simp [hx]))
                    (fun x hx => hg x (by simp [hx]))
                    (by simpa using h3)
                  rw [hfg, h4]

/-- C8 counterexample: the distinct filter lists [("a =", 1)] (integer)
and [("a =", "1")] (string) render to the same filter cache key, and
MemcacheWrappedGetAllFilter consequently behaves identically on them —
distinct filter sets can collide. -/
theorem C8_counterexample :
    mwgafKey "KeyValueCache" [("a =", .int 1)]
      = mwgafKey "KeyValueCache" [("a =", .str "1")]
    ∧ ([("a =", Value.int 1)] : List (String × Value))
        ≠ [("a =", Value.str "1")]
    ∧ MemcacheWrappedGetAllFilter emptyState "KeyValueCache"
        [("a =", .int 1)] 1000 300
      = MemcacheWrappedGetAllFilter emptyState "KeyValueCache"
        [("a =", .str "1")] 1000 300 :=
  ⟨by decide, by decide, rfl⟩

/-- C8 amended: the derived filter cache key is a deterministic function
of the filter list, and it is injective on string-valued filter lists
whose comparator and value strings avoid the encoding's separator
characters (comma, pipe, underscore); unrestricted filter lists can
collide (see the counterexample). -/
theorem C8_filter_key_injective (kind : String)
    (fs gs : List (String × String))
    (hf : ∀ x ∈ fs, cleanStr x.1 = true ∧ cleanStr x.2 = true)
    (hg : ∀ x ∈ gs, cleanStr x.1 = true ∧ cleanStr x.2 = true)
    (h : mwgafKey kind (strFilters fs) = mwgafKey kind (strFilters gs)) :
    fs = gs := by
  have hd2 : (filterStr (strFilters fs)).data
      = (filterStr (strFilters gs)).data := by
    have hd := congrArg String.data h
    simp only [mwgafKey, String.data_append, List.append_assoc] at hd
    exact List.append_cancel_left (List.append_cancel_left hd)
  have hj : joinChars (fs.map (fun x => itemChars x.1 x.2))
      = joinChars (gs.map (fun x => itemChars x.1 x.2)) := by
    simpa [filterStr, strFilters, joinPipe_data, List.map_map,
      Function.comp_def, item_data] using hd2
  exact joined_inj fs gs hf hg hj

/-- C8 witness: injectivity applied at a concrete separator-free filter
list. -/
theorem C8_witness :
    ([("owner =", "bob"), ("active =", "True")] : List (String × String))
      = [("owner =", "bob"), ("active =", "True")] :=
  C8_filter_key_injective "Computer"
    [("owner =", "bob"), ("active =", "True")]
    [("owner =", "bob"), ("active =", "True")]
    (by decide) (by decide) rfl

end Simian
